import Mathlib

/-!
Verification of `bin/copy_videos.py` (pybrightcove sample migration script).

The script is shallowly embedded: remote behaviour (Brightcove fetch, HTTP
download, upload/save) is an oracle `World` of pure functions, filesystem and
log effects are threaded through an explicit state `St`, and Python exceptions
that escape the script are modelled as a `Crash` value.  Each definition
mirrors one Python function of the source, keeping its name.
-/

namespace CopyVideos

/-- Model of `RenditionRecord`: the fields of a pybrightcove rendition that the script
reads (`url`, `video_codec`, `size`).  `url` may be `None` in Python, hence
`Option`. -/
structure Rendition where
  url : Option String
  video_codec : String
  size : Int
deriving DecidableEq

/-- Connection a video object currently points at (`OLDCONN` / `NEWCONN`). -/
inductive Conn where
  | oldConn
  | newConn
deriving DecidableEq

/-- Model of `VideoRecord`: the fields of a pybrightcove `Video` the script touches.
`id` and `renditions` can be set to `None` (done in `upload_video`), and
`_filename` starts unset, hence the `Option`s. -/
structure Video where
  id : Option String
  renditions : Option (List Rendition)
  filename : Option String
  connection : Conn
deriving DecidableEq

/-- The characters Python `str.strip()` removes. -/
def pyWhitespace (c : Char) : Bool :=
  c = ' ' || c = '\t' || c = '\n' || c = '\r' || c = '\x0b' || c = '\x0c'

/-- Python `s.strip()`: drop leading and trailing whitespace. -/
def strip (s : String) : String :=
  ⟨((s.data.dropWhile pyWhitespace).reverse.dropWhile pyWhitespace).reverse⟩

/-- Python `s.startswith(p)`. -/
def strStartsWith (s p : String) : Bool :=
  p.data.isPrefixOf s.data

/-- Eligibility test from line 115 of the source:
`rendition.url is not None and rendition.url.startswith('http')`. -/
def eligible (r : Rendition) : Bool :=
  match r.url with
  | some u => strStartsWith u "http"
  | none => false

/-- The `best_rendition` accumulation loop of `download_video`
(lines 113-119), with the running best as explicit accumulator. -/
def selectBestLoop (best : Option Rendition) : List Rendition → Option Rendition
  | [] => best
  | r :: rest =>
    if eligible r then
      match best with
      | none => selectBestLoop (some r) rest
      | some b =>
        if r.size > b.size then selectBestLoop (some r) rest
        else selectBestLoop (some b) rest
    else selectBestLoop best rest

/-- The rendition selector of `download_video`: starts with `best_rendition =
None` and folds the loop over the rendition list. -/
def select_best (rs : List Rendition) : Option Rendition :=
  selectBestLoop none rs

/-- The same loop restricted to an already-filtered (all-eligible) list;
used to characterise `selectBestLoop`. -/
def pickLoop (best : Option Rendition) : List Rendition → Option Rendition
  | [] => best
  | r :: rest =>
    match best with
    | none => pickLoop (some r) rest
    | some b =>
      if r.size > b.size then pickLoop (some r) rest
      else pickLoop (some b) rest

/-- First-seen maximum-size element of `b :: l`: a later element replaces the
current best only when strictly larger. -/
def firstMax (b : Rendition) : List Rendition → Rendition
  | [] => b
  | r :: rest => if r.size > b.size then firstMax r rest else firstMax b rest

/-- One log event per `logger.*` call site of the script (the format strings
themselves are glue; each constructor carries the formatted-in data). -/
inductive LogLine where
  | infoStart
  | infoStarting (fname : String)
  | warnFileNotFound (fname : String)
  | criticalCsvExists (csvfname : String)
  | infoRecording (csvfname : String)
  | infoVideo (id : String)
  | warnNoData (id : String)
  | warnNoRendition (id : String)
  | infoFetching (vid codec fname : String)
  | debugBytes (n : Nat)
  | warnUpload (code : Nat) (description : String)
  | infoDone
deriving DecidableEq

/-- A Python exception escaping the script (aborting the process with a
traceback and non-zero exit), or an explicit `sys.exit`. -/
inductive Crash where
  | nameError (missing : String)
  | typeError (msg : String)
  | attrError (msg : String)
  | sysExit (code : Nat)
deriving DecidableEq

/-- Result of `urllib2.urlopen` + reading the body, as the script observes it:
the full byte stream, or one of the two exception classes it catches. -/
inductive HttpResult where
  | ok (content : List Nat)
  | httpError (code : Nat)
  | urlError (reason : String)
deriving DecidableEq

/-- Result of `Video.save()` on the destination connection: the newly
assigned id, or the `IllegalValueError` the script catches. -/
inductive SaveResult where
  | ok (newId : String)
  | illegalValue (code : Nat) (description : String)
deriving DecidableEq

/-- Oracle for everything outside the script: input list files on disk,
the source account (`Video(id=...)` fetch, `None` = `NoDataFoundError`),
the HTTP download, and the destination account's `save`. -/
structure World where
  lists : String → Option (List String)
  fetch : String → Option Video
  http : String → HttpResult
  save : Video → SaveResult

/-- Local filesystem and log effects: downloaded video files (path to bytes),
CSV files (path to written rows), and the emitted log calls in order. -/
structure St where
  videoFiles : List (String × List Nat)
  csvFiles : List (String × List String)
  logs : List LogLine
deriving DecidableEq

def emptySt : St := ⟨[], [], []⟩

def lookup {α : Type} : List (String × α) → String → Option α
  | [], _ => none
  | (k, v) :: rest, key => if k = key then some v else lookup rest key

def upsert {α : Type} : List (String × α) → String → α → List (String × α)
  | [], key, v => [(key, v)]
  | (k, v') :: rest, key, v =>
    if k = key then (key, v) :: rest else (k, v') :: upsert rest key v

/-- Append one row to an open CSV file (`fh.write` of one line). -/
def csvAppend (st : St) (path row : String) : St :=
  match lookup st.csvFiles path with
  | none => { st with csvFiles := upsert st.csvFiles path [row] }
  | some rows => { st with csvFiles := upsert st.csvFiles path (rows ++ [row]) }

/-- Python `str` applied to a value that is a string or `None`. -/
def pyStr : Option String → String
  | none => "None"
  | some s => s

/-- Model of `os.path.basename` for POSIX paths: the part after the last slash. -/
def basename (s : String) : String :=
  ⟨(s.data.reverse.takeWhile (fun c => c ≠ '/')).reverse⟩

def DOWNLOAD_DIR : String := "./downloads/"

/-- Filename derivation of `download_video` lines 126-130:
`DOWNLOAD_DIR + str(id)` plus `.mp4` for H264, `.m2ts` for M2TS, nothing
otherwise. -/
def deriveFilename (id codec : String) : String :=
  let fname := DOWNLOAD_DIR ++ id
  if codec = "H264" then fname ++ ".mp4"
  else if codec = "M2TS" then fname ++ ".m2ts"
  else fname

def CHUNK : Nat := 4096

/-- The `while True: chunk = req.read(CHUNK) ...` loop (lines 136-143):
returns the file contents written, the `downloaded` byte counter, and the
list of chunks passed to `fp.write` in order.  `req.read(CHUNK)` on an
exhausted stream returns the empty chunk, ending the loop (the final
`downloaded += 0` is dropped as a no-op). -/
def dlLoop : List Nat → List Nat → Nat → List (List Nat) → List Nat × Nat × List (List Nat)
  | [], fileAcc, downloaded, writes => (fileAcc, downloaded, writes)
  | r :: rs, fileAcc, downloaded, writes =>
    let chunk := (r :: rs).take CHUNK
    dlLoop ((r :: rs).drop CHUNK) (fileAcc ++ chunk)
      (downloaded + chunk.length) (writes ++ [chunk])
termination_by remaining _ _ _ => remaining.length
decreasing_by
  simp only [List.length_drop, List.length_cons, CHUNK]
  omega

/-- What `download_video` hands back to its caller: a Python return value
(`v`, `None` — the source's `return False` branches are unreachable, see
`download_video`) or an exception escaping the call. -/
inductive DlOut where
  | ret (v : Option Video)
  | crash (c : Crash)
deriving DecidableEq

def DlOut.isCrash : DlOut → Bool
  | .crash _ => true
  | _ => false

/-- Model of `download_video(id)` (lines 102-152).  On an `HTTPError`/`URLError` the
handler's log call (lines 147, 150) evaluates the name `url`, which is bound
nowhere in the function or module, so Python raises `NameError` out of the
handler and the `return False` on lines 148/151 is never reached. -/
def download_video (w : World) (id : String) (st : St) : St × DlOut :=
  let st1 : St := { st with logs := st.logs ++ [LogLine.infoVideo id] }
  match w.fetch id with
  | none => ({ st1 with logs := st1.logs ++ [LogLine.warnNoData id] }, .ret none)
  | some v =>
    match v.renditions with
    | none => (st1, .crash (.typeError "renditions is None"))
    | some rs =>
      match select_best rs with
      | none =>
        ({ st1 with logs := st1.logs ++ [LogLine.warnNoRendition id] }, .ret none)
      | some best =>
        let fname := deriveFilename id best.video_codec
        let st2 : St :=
          { st1 with logs :=
              st1.logs ++ [LogLine.infoFetching (pyStr v.id) best.video_codec fname] }
        match best.url with
        | none => (st2, .crash (.attrError "urlopen on None url"))
        | some u =>
          match w.http u with
          | .ok content =>
            let r := dlLoop content [] 0 []
            let st3 : St :=
              { st2 with
                videoFiles := upsert st2.videoFiles fname r.1,
                logs := st2.logs ++ [LogLine.debugBytes r.2.1] }
            (st3, .ret (some { v with filename := some fname }))
          | .httpError _ => (st2, .crash (.nameError "url"))
          | .urlError _ => (st2, .crash (.nameError "url"))

/-- The three in-place mutations at the top of `upload_video`
(lines 155-157): switch the connection, clear id and renditions. -/
def clearForUpload (v : Video) : Video :=
  { v with connection := Conn.newConn, id := none, renditions := none }

/-- Model of `upload_video(v)` (lines 154-164).  Returns the final state, the final
contents of the (mutated) video object, and the Python return value. -/
def upload_video (w : World) (v0 : Video) (st : St) : St × Video × Option Video :=
  let v := clearForUpload v0
  match w.save v with
  | .ok newId =>
    let v1 : Video := { v with id := some newId }
    (st, v1, some v1)
  | .illegalValue code desc =>
    ({ st with logs := st.logs ++ [LogLine.warnUpload code desc] }, v, none)

/-- Row written by `record_old_new_ids(csv, oldid, newid)` (lines 166-168): one quoted
CSV row (the trailing newline is line formatting, elided). -/
def csvRow (oldid newid : String) : String :=
  "\"" ++ oldid ++ "\",\"" ++ newid ++ "\""

def record_old_new_ids (st : St) (csvfname oldid newid : String) : St :=
  csvAppend st csvfname (csvRow oldid newid)

def headerRow : String := "\"old_id\",\"new_id\""

/-- Output file name derivation, line 83. -/
def csvName (fname : String) : String :=
  "./old_new_ids-" ++ basename fname ++ ".csv"

/-- The per-id loop of `process_videos_list` (lines 92-98).  The final
`v.id = oldId` (line 98) mutates a local object that is immediately
discarded, so it has no observable effect and is elided. -/
def processIds (w : World) (csvfname : String) : List String → St → St × Option Crash
  | [], st => (st, none)
  | oldId :: rest, st =>
    match download_video w oldId st with
    | (st1, .crash c) => (st1, some c)
    | (st1, .ret none) => processIds w csvfname rest st1
    | (st1, .ret (some v)) =>
      match upload_video w v st1 with
      | (st2, _, none) => processIds w csvfname rest st2
      | (st2, _, some v2) =>
        processIds w csvfname rest
          (record_old_new_ids st2 csvfname oldId (pyStr v2.id))

/-- Model of `process_videos_list(fname)` (lines 74-100).  Line 81 logs the global
`name`, which the main loop always binds to the same value as `fname`. -/
def process_videos_list (w : World) (fname : String) (st : St) : St × Option Crash :=
  match w.lists fname with
  | none => ({ st with logs := st.logs ++ [LogLine.warnFileNotFound fname] }, none)
  | some rawLines =>
    let lines := rawLines.map strip
    let st1 : St := { st with logs := st.logs ++ [LogLine.infoStarting fname] }
    let csvfname := csvName fname
    match lookup st1.csvFiles csvfname with
    | some _ =>
      ({ st1 with logs := st1.logs ++ [LogLine.criticalCsvExists csvfname] },
        some (Crash.sysExit 1))
    | none =>
      let st2 : St := { st1 with csvFiles := upsert st1.csvFiles csvfname [] }
      let st3 : St := { st2 with logs := st2.logs ++ [LogLine.infoRecording csvfname] }
      let st4 := csvAppend st3 csvfname headerRow
      processIds w csvfname lines st4

/-- The `for name in sys.argv[1:]` loop (lines 187-188); an escaping
exception or `sys.exit` aborts the loop. -/
def runLists (w : World) : List String → St → St × Option Crash
  | [], st => (st, none)
  | a :: rest, st =>
    match process_videos_list w a st with
    | (st1, some c) => (st1, some c)
    | (st1, none) => runLists w rest st1

/-- The module main section (lines 178-190), minus logging config and
download-directory creation (glue). -/
def mainRun (w : World) (args : List String) (st : St) : St × Option Crash :=
  let st1 : St := { st with logs := st.logs ++ [LogLine.infoStart] }
  match runLists w args st1 with
  | (st2, some c) => (st2, some c)
  | (st2, none) => ({ st2 with logs := st2.logs ++ [LogLine.infoDone] }, none)

/-- Process exit code: 0 on normal completion, non-zero for `sys.exit(1)` or
an uncaught exception (CPython exits 1 on a traceback). -/
def exitCode : Option Crash → Nat
  | none => 0
  | some (Crash.sysExit c) => c
  | some _ => 1

/-- The caller-visible outcome of `download_video`, which is independent of
the incoming filesystem/log state (proved in `download_video_out_indep`). -/
def dlOut (w : World) (id : String) : DlOut :=
  (download_video w id emptySt).2

/-- The CSV row a given id contributes, if any: present exactly when both
download and upload succeed. -/
def rowOf (w : World) (id : String) : Option String :=
  match dlOut w id with
  | .ret (some v) =>
    match w.save (clearForUpload v) with
    | .ok newId => some (csvRow id newId)
    | .illegalValue _ _ => none
  | _ => none

/-! Concrete fixtures used to instantiate the theorems below. -/

def rend10 : Rendition := ⟨some "http://r10", "H264", 10⟩

def rend50 : Rendition := ⟨some "http://r50", "H264", 50⟩

def rend30 : Rendition := ⟨some "http://r30", "H264", 30⟩

def rendC : Rendition := ⟨some "http://c", "M2TS", 7⟩

def rsW : List Rendition := [rend10, rend50, rend30]

def vidA : Video := ⟨some "A", some rsW, none, Conn.oldConn⟩

def vidC : Video := ⟨some "C", some [rendC], none, Conn.oldConn⟩

def vidX : Video := ⟨some "X", some [⟨some "http://x", "H264", 5⟩], none, Conn.oldConn⟩

def wBatch : World :=
  { lists := fun s =>
      if s = "list1.txt" then some [" A ", "B", "C"]
      else if s = "skip.txt" then some ["B"]
      else none
    fetch := fun id =>
      if id = "A" then some vidA
      else if id = "C" then some vidC
      else none
    http := fun u =>
      if u = "http://r50" then HttpResult.ok [1, 2, 3, 4, 5]
      else if u = "http://c" then HttpResult.ok [9]
      else HttpResult.urlError "unreachable"
    save := fun v =>
      match v.filename with
      | some f => if f = "./downloads/A.mp4" then SaveResult.ok "newA" else SaveResult.ok "newC"
      | none => SaveResult.illegalValue 0 "no file" }

def wErr : World :=
  { lists := fun s => if s = "bad.txt" then some ["X"] else none
    fetch := fun id => if id = "X" then some vidX else none
    http := fun _ => HttpResult.httpError 404
    save := fun _ => SaveResult.illegalValue 0 "" }

def wRej : World :=
  { lists := fun _ => none
    fetch := fun _ => none
    http := fun _ => HttpResult.urlError "x"
    save := fun _ => SaveResult.illegalValue 304 "invalid field value" }

def vOld : Video := ⟨some "old1", some [rend10], some "./downloads/old1.mp4", Conn.oldConn⟩

def stPre : St := ⟨[], [(csvName "list1.txt", ["junk"])], []⟩

theorem selectBestLoop_eq_pickLoop (best : Option Rendition) (l : List Rendition) :
    selectBestLoop best l = pickLoop best (l.filter eligible) := by
  induction l generalizing best with
  | nil => rfl
  | cons r rest ih =>
    by_cases h : eligible r
    · cases best with
      | none => simp [selectBestLoop, pickLoop, h, ih]
      | some b =>
        by_cases hs : r.size > b.size <;>
          simp [selectBestLoop, pickLoop, h, hs, ih]
    · simp [selectBestLoop, pickLoop, h, ih]

theorem pickLoop_some (b : Rendition) (l : List Rendition) :
    pickLoop (some b) l = some (firstMax b l) := by
  induction l generalizing b with
  | nil => rfl
  | cons r rest ih =>
    by_cases hs : r.size > b.size <;> simp [pickLoop, firstMax, hs, ih]

theorem pickLoop_none_cons (r : Rendition) (l : List Rendition) :
    pickLoop none (r :: l) = some (firstMax r l) := by
  simp [pickLoop, pickLoop_some]

theorem firstMax_cons_pos (b r : Rendition) (rest : List Rendition)
    (hs : r.size > b.size) : firstMax b (r :: rest) = firstMax r rest := by
  simp [firstMax, hs]

theorem firstMax_cons_neg (b r : Rendition) (rest : List Rendition)
    (hs : ¬ r.size > b.size) : firstMax b (r :: rest) = firstMax b rest := by
  simp [firstMax, hs]

theorem firstMax_mem (b : Rendition) (l : List Rendition) :
    firstMax b l ∈ b :: l := by
  induction l generalizing b with
  | nil => simp [firstMax]
  | cons r rest ih =>
    by_cases hs : r.size > b.size
    · rw [firstMax_cons_pos b r rest hs]
      have h := ih r
      simp only [List.mem_cons] at h ⊢
      tauto
    · rw [firstMax_cons_neg b r rest hs]
      have h := ih b
      simp only [List.mem_cons] at h ⊢
      tauto

theorem firstMax_max (b : Rendition) (l : List Rendition) :
    ∀ x ∈ b :: l, x.size ≤ (firstMax b l).size := by
  induction l generalizing b with
  | nil =>
    intro x hx
    simp only [List.mem_singleton] at hx
    simp [firstMax, hx]
  | cons r rest ih =>
    by_cases hs : r.size > b.size
    · rw [firstMax_cons_pos b r rest hs]
      intro x hx
      rcases List.mem_cons.mp hx with rfl | hx2
      · exact le_of_lt (lt_of_lt_of_le hs (ih r r (by simp)))
      · exact ih r x hx2
    · rw [firstMax_cons_neg b r rest hs]
      intro x hx
      rcases List.mem_cons.mp hx with heq | hx2
      · rw [heq]
        exact ih b b (by simp)
      · rcases List.mem_cons.mp hx2 with rfl | hx3
        · exact le_trans (not_lt.mp hs) (ih b b (by simp))
        · exact ih b x (by simp [hx3])

theorem firstMax_first (b : Rendition) (l : List Rendition) :
    ∃ pre suf, b :: l = pre ++ (firstMax b l) :: suf ∧
      ∀ x ∈ pre, x.size < (firstMax b l).size := by
  induction l generalizing b with
  | nil => exact ⟨[], [], rfl, by simp⟩
  | cons r rest ih =>
    by_cases hs : r.size > b.size
    · rw [firstMax_cons_pos b r rest hs]
      obtain ⟨pre, suf, heq, hlt⟩ := ih r
      refine ⟨b :: pre, suf, by simp [heq], ?_⟩
      intro x hx
      rcases List.mem_cons.mp hx with rfl | hx2
      · exact lt_of_lt_of_le hs (firstMax_max r rest r (by simp))
      · exact hlt x hx2
    · rw [firstMax_cons_neg b r rest hs]
      obtain ⟨pre, suf, heq, hlt⟩ := ih b
      cases pre with
      | nil =>
        have h1 : b = firstMax b rest := by injection heq
        refine ⟨[], r :: rest, ?_, by simp⟩
        rw [← h1]
        rfl
      | cons p pre' =>
        have h1 : b = p := by injection heq
        have h2 : rest = pre' ++ firstMax b rest :: suf := by injection heq
        have hblt : b.size < (firstMax b rest).size := by
          have hp := hlt p (by simp)
          rw [← h1] at hp
          exact hp
        refine ⟨b :: r :: pre', suf, ?_, ?_⟩
        · rw [show b :: r :: rest = b :: r :: (pre' ++ firstMax b rest :: suf) from
            by rw [← h2]]
          rfl
        · intro x hx
          rcases List.mem_cons.mp hx with rfl | hx2
          · exact hblt
          · rcases List.mem_cons.mp hx2 with rfl | hx3
            · exact lt_of_le_of_lt (not_lt.mp hs) hblt
            · exact hlt x (by simp [hx3])
theorem select_best_eq (rs : List Rendition) :
    select_best rs = pickLoop none (rs.filter eligible) :=
  selectBestLoop_eq_pickLoop none rs

/-- C1: rendition selection considers eligible exactly the renditions whose
url is present and starts with "http"; with at least one eligible rendition
it returns the eligible rendition of maximum size, ties broken in favour of
the first-seen eligible one, and with none it returns absent, upon which
`download_video` logs a warning and returns `None` (a skip, not an error). -/
theorem C1_rendition_selection (rs : List Rendition) :
    (∀ x u, x.url = some u → (eligible x = true ↔ strStartsWith u "http" = true)) ∧
    (∀ x, x.url = none → eligible x = false) ∧
    (select_best rs = none ↔ rs.filter eligible = []) ∧
    (∀ r, select_best rs = some r →
      eligible r = true ∧ r ∈ rs ∧
      (∀ x ∈ rs, eligible x = true → x.size ≤ r.size) ∧
      ∃ pre suf, rs.filter eligible = pre ++ r :: suf ∧
        ∀ x ∈ pre, x.size < r.size) ∧
    (∀ w id st v, w.fetch id = some v → v.renditions = some rs →
      select_best rs = none →
      download_video w id st =
        ({ st with logs := st.logs ++ [LogLine.infoVideo id, LogLine.warnNoRendition id] },
          DlOut.ret none)) := by
  refine ⟨?_, ?_, ?_, ?_, ?_⟩
  · intro x u hu
    simp [eligible, hu]
  · intro x hx
    simp [eligible, hx]
  · rw [select_best_eq]
    cases h : rs.filter eligible with
    | nil => simp [pickLoop]
    | cons a as => simp [pickLoop_none_cons]
  · intro r hr
    rw [select_best_eq] at hr
    cases h : rs.filter eligible with
    | nil =>
      rw [h] at hr
      simp [pickLoop] at hr
    | cons a as =>
      rw [h, pickLoop_none_cons] at hr
      have hrfm : firstMax a as = r := by
        injection hr
      subst hrfm
      have hmemf : firstMax a as ∈ rs.filter eligible := by
        rw [h]
        exact firstMax_mem a as
      refine ⟨(List.mem_filter.mp hmemf).2, (List.mem_filter.mp hmemf).1, ?_, ?_⟩
      · intro x hx hex
        have hxf : x ∈ rs.filter eligible := List.mem_filter.mpr ⟨hx, hex⟩
        rw [h] at hxf
        exact firstMax_max a as x hxf
      · obtain ⟨pre, suf, heq, hlt⟩ := firstMax_first a as
        exact ⟨pre, suf, heq, hlt⟩
  · intro w id st v hf hrend hsel
    simp [download_video, hf, hrend, hsel]

/-- Concrete instantiation of `C1_rendition_selection`: on the all-eligible
sizes [10, 50, 30] the selector returns the size-50 rendition, which is
maximal, and every eligible rendition seen before it is strictly smaller. -/
theorem C1_witness :
    eligible rend50 = true ∧ rend50 ∈ rsW ∧
    (∀ x ∈ rsW, eligible x = true → x.size ≤ rend50.size) ∧
    ∃ pre suf, rsW.filter eligible = pre ++ rend50 :: suf ∧
      ∀ x ∈ pre, x.size < rend50.size :=
  (C1_rendition_selection rsW).2.2.2.1 rend50 (by decide)

theorem lookup_upsert {α : Type} (m : List (String × α)) (k : String) (v : α) :
    lookup (upsert m k v) k = some v := by
  induction m with
  | nil => simp [upsert, lookup]
  | cons p rest ih =>
    obtain ⟨k', v'⟩ := p
    by_cases h : k' = k
    · simp [upsert, lookup, h]
    · simp [upsert, lookup, h, ih]

theorem csvAppend_lookup (st : St) (p r : String) (rows : List String)
    (h : lookup st.csvFiles p = some rows) :
    lookup (csvAppend st p r).csvFiles p = some (rows ++ [r]) := by
  unfold csvAppend
  rw [h]
  simp [lookup_upsert]

theorem csvAppend_videoFiles (st : St) (p r : String) :
    (csvAppend st p r).videoFiles = st.videoFiles := by
  unfold csvAppend
  cases lookup st.csvFiles p <;> rfl

theorem dlLoop_spec (n : Nat) :
    ∀ (remaining fileAcc : List Nat) (downloaded : Nat) (writes : List (List Nat)),
      remaining.length ≤ n →
      ∃ ws, dlLoop remaining fileAcc downloaded writes =
          (fileAcc ++ remaining, downloaded + remaining.length, writes ++ ws) ∧
        ws.flatten = remaining ∧ ∀ c ∈ ws, c ≠ [] ∧ c.length ≤ CHUNK := by
  induction n with
  | zero =>
    intro remaining fileAcc downloaded writes hlen
    have hnil : remaining = [] := List.length_eq_zero.mp (Nat.le_zero.mp hlen)
    subst hnil
    exact ⟨[], by simp [dlLoop], by simp, by simp⟩
  | succ n ih =>
    intro remaining fileAcc downloaded writes hlen
    cases remaining with
    | nil => exact ⟨[], by simp [dlLoop], by simp, by simp⟩
    | cons r rs =>
      have hstep : dlLoop (r :: rs) fileAcc downloaded writes =
          dlLoop ((r :: rs).drop CHUNK) (fileAcc ++ (r :: rs).take CHUNK)
            (downloaded + ((r :: rs).take CHUNK).length)
            (writes ++ [(r :: rs).take CHUNK]) := by
        rw [dlLoop]
      have hlen1 : (r :: rs).length ≤ n + 1 := hlen
      have hlen2 : ((r :: rs).drop CHUNK).length ≤ n := by
        simp only [List.length_drop, List.length_cons, CHUNK]
        simp only [List.length_cons] at hlen1
        omega
      obtain ⟨ws, heq, hflat, hch⟩ := ih ((r :: rs).drop CHUNK)
        (fileAcc ++ (r :: rs).take CHUNK)
        (downloaded + ((r :: rs).take CHUNK).length)
        (writes ++ [(r :: rs).take CHUNK]) hlen2
      have htd : (r :: rs).take CHUNK ++ (r :: rs).drop CHUNK = r :: rs :=
        List.take_append_drop CHUNK (r :: rs)
      have hlen3 : ((r :: rs).take CHUNK).length + ((r :: rs).drop CHUNK).length =
          (r :: rs).length := by
        rw [← List.length_append, htd]
      refine ⟨(r :: rs).take CHUNK :: ws, ?_, ?_, ?_⟩
      · rw [hstep, heq]
        have h1 : fileAcc ++ (r :: rs).take CHUNK ++ (r :: rs).drop CHUNK =
            fileAcc ++ (r :: rs) := by
          rw [List.append_assoc, htd]
        have h2 : downloaded + ((r :: rs).take CHUNK).length + ((r :: rs).drop CHUNK).length =
            downloaded + (r :: rs).length := by
          omega
        have h3 : writes ++ [(r :: rs).take CHUNK] ++ ws =
            writes ++ ((r :: rs).take CHUNK :: ws) := by
          simp
        rw [h1, h2, h3]
      · have : ((r :: rs).take CHUNK :: ws).flatten =
            (r :: rs).take CHUNK ++ ws.flatten := by
          simp
        rw [this, hflat]
        exact htd
      · intro c hc
        rcases List.mem_cons.mp hc with rfl | hc2
        · constructor
          · intro hemp
            have hlc := congrArg List.length hemp
            simp only [List.length_take, List.length_cons, List.length_nil, CHUNK] at hlc
            omega
          · exact List.length_take_le CHUNK (r :: rs)
        · exact hch c hc2

theorem download_video_out_indep (w : World) (id : String) (st : St) :
    (download_video w id st).2 = dlOut w id := by
  rcases hf : w.fetch id with - | v
  · simp [dlOut, download_video, hf]
  · rcases hr : v.renditions with - | rs
    · simp [dlOut, download_video, hf, hr]
    · rcases hsel : select_best rs with - | best
      · simp [dlOut, download_video, hf, hr, hsel]
      · rcases hu : best.url with - | u
        · simp [dlOut, download_video, hf, hr, hsel, hu]
        · rcases hh : w.http u with content | c | reason <;>
            simp [dlOut, download_video, hf, hr, hsel, hu, hh]

theorem download_video_csvFiles (w : World) (id : String) (st : St) :
    ((download_video w id st).1).csvFiles = st.csvFiles := by
  rcases hf : w.fetch id with - | v
  · simp [download_video, hf]
  · rcases hr : v.renditions with - | rs
    · simp [download_video, hf, hr]
    · rcases hsel : select_best rs with - | best
      · simp [download_video, hf, hr, hsel]
      · rcases hu : best.url with - | u
        · simp [download_video, hf, hr, hsel, hu]
        · rcases hh : w.http u with content | c | reason <;>
            simp [download_video, hf, hr, hsel, hu, hh]

theorem upload_video_eq (w : World) (v : Video) (st : St) :
    upload_video w v st =
      match w.save (clearForUpload v) with
      | SaveResult.ok nid =>
        (st, { clearForUpload v with id := some nid },
          some { clearForUpload v with id := some nid })
      | SaveResult.illegalValue c d =>
        ({ st with logs := st.logs ++ [LogLine.warnUpload c d] }, clearForUpload v, none) := by
  cases hs : w.save (clearForUpload v) with
  | ok nid => simp [upload_video, hs]
  | illegalValue c d => simp [upload_video, hs]

theorem upload_video_csvFiles (w : World) (v : Video) (st : St) :
    ((upload_video w v st).1).csvFiles = st.csvFiles := by
  cases hs : w.save (clearForUpload v) with
  | ok nid => simp [upload_video, hs]
  | illegalValue c d => simp [upload_video, hs]

/-- C5: a successfully downloaded rendition of N bytes is stream-copied in
chunks of at most `CHUNK = 4096` bytes, each written incrementally and
non-empty, whose concatenation is the stream; the local file holds exactly
those N bytes; and the file name is the old id under the download directory
with `.mp4` for codec H264, `.m2ts` for M2TS, and no extension otherwise. -/
theorem C5_download_correctness (w : World) (id : String) (st : St)
    (v : Video) (rs : List Rendition) (best : Rendition) (u : String)
    (content : List Nat)
    (hf : w.fetch id = some v) (hrend : v.renditions = some rs)
    (hsel : select_best rs = some best) (hurl : best.url = some u)
    (hhttp : w.http u = HttpResult.ok content) :
    (download_video w id st).2 =
      DlOut.ret (some { v with filename := some (deriveFilename id best.video_codec) }) ∧
    (∃ file, lookup ((download_video w id st).1).videoFiles
        (deriveFilename id best.video_codec) = some file ∧
      file = content ∧ file.length = content.length) ∧
    (dlLoop content [] 0 []).2.1 = content.length ∧
    (∃ ws, (dlLoop content [] 0 []).2.2 = ws ∧ ws.flatten = content ∧
      ∀ c ∈ ws, c ≠ [] ∧ c.length ≤ CHUNK) ∧
    deriveFilename id "H264" = DOWNLOAD_DIR ++ id ++ ".mp4" ∧
    deriveFilename id "M2TS" = DOWNLOAD_DIR ++ id ++ ".m2ts" ∧
    (∀ codec, codec ≠ "H264" → codec ≠ "M2TS" →
      deriveFilename id codec = DOWNLOAD_DIR ++ id) := by
  obtain ⟨ws, hdl, hflat, hch⟩ := dlLoop_spec content.length content [] 0 [] (le_refl _)
  simp only [List.nil_append, Nat.zero_add] at hdl
  refine ⟨?_, ?_, ?_, ?_, ?_, ?_, ?_⟩
  · simp [download_video, hf, hrend, hsel, hurl, hhttp]
  · refine ⟨content, ?_, rfl, rfl⟩
    simp only [download_video, hf, hrend, hsel, hurl, hhttp]
    rw [lookup_upsert]
    rw [hdl]
  · rw [hdl]
  · exact ⟨ws, by rw [hdl], hflat, hch⟩
  · simp [deriveFilename]
  · simp [deriveFilename]
  · intro codec h1 h2
    simp [deriveFilename, h1, h2]

/-- Instantiation of `C5_download_correctness` on a concrete 5-byte
rendition: the stored file is exactly those 5 bytes. -/
theorem C5_witness :
    ∃ file, lookup ((download_video wBatch "A" emptySt).1).videoFiles
        (deriveFilename "A" rend50.video_codec) = some file ∧
      file = [1, 2, 3, 4, 5] ∧ file.length = 5 := by
  have h := C5_download_correctness wBatch "A" emptySt vidA rsW rend50 "http://r50"
    [1, 2, 3, 4, 5] (by decide) (by decide) (by decide) (by decide) (by decide)
  obtain ⟨file, hl, hfc, -⟩ := h.2.1
  refine ⟨file, hl, hfc, ?_⟩
  rw [hfc]
  rfl

/-- C6: `upload_video` clears the record's identifier and rendition list
(and switches its connection) before submitting it; a validation rejection
is logged with its code and description and yields `None`, while success
yields the record carrying the newly assigned identifier. -/
theorem C6_upload (w : World) (v : Video) (st : St) :
    (clearForUpload v).id = none ∧
    (clearForUpload v).renditions = none ∧
    (clearForUpload v).connection = Conn.newConn ∧
    (∀ code desc, w.save (clearForUpload v) = SaveResult.illegalValue code desc →
      (upload_video w v st).2.2 = none ∧
      ((upload_video w v st).1).logs = st.logs ++ [LogLine.warnUpload code desc]) ∧
    (∀ newId, w.save (clearForUpload v) = SaveResult.ok newId →
      (upload_video w v st).2.2 = some { clearForUpload v with id := some newId }) := by
  refine ⟨rfl, rfl, rfl, ?_, ?_⟩
  · intro code desc hs
    constructor <;> simp [upload_video, hs]
  · intro nid hs
    simp [upload_video, hs]

/-- Instantiation of `C6_upload`: a destination that rejects with error 304
makes the worker log the code and description and return `None`. -/
theorem C6_witness :
    (upload_video wRej vOld emptySt).2.2 = none ∧
    ((upload_video wRej vOld emptySt).1).logs =
      emptySt.logs ++ [LogLine.warnUpload 304 "invalid field value"] :=
  (C6_upload wRej vOld emptySt).2.2.2.1 304 "invalid field value" (by decide)

/-- C7: a NotFound fetch makes `download_video` log a warning and return
`None` with the filesystem untouched, and re-running on the resulting state
yields the same skip and again touches no file. -/
theorem C7_notfound_skip (w : World) (id : String) (st : St)
    (hf : w.fetch id = none) :
    download_video w id st =
      ({ st with logs := st.logs ++ [LogLine.infoVideo id, LogLine.warnNoData id] },
        DlOut.ret none) ∧
    ((download_video w id st).1).videoFiles = st.videoFiles ∧
    ((download_video w id st).1).csvFiles = st.csvFiles ∧
    (download_video w id st).2 = DlOut.ret none ∧
    (download_video w id ((download_video w id st).1)).2 = DlOut.ret none ∧
    ((download_video w id ((download_video w id st).1)).1).videoFiles = st.videoFiles := by
  have h : download_video w id st =
      ({ st with logs := st.logs ++ [LogLine.infoVideo id, LogLine.warnNoData id] },
        DlOut.ret none) := by
    simp [download_video, hf]
  have h2 : download_video w id ((download_video w id st).1) =
      ({ (download_video w id st).1 with logs :=
          ((download_video w id st).1).logs ++
            [LogLine.infoVideo id, LogLine.warnNoData id] },
        DlOut.ret none) := by
    simp [download_video, hf]
  refine ⟨h, by rw [h], by rw [h], by rw [h], by rw [h2], ?_⟩
  rw [h2, h]

/-- Instantiation of `C7_notfound_skip`: identifier "B" is absent from the
source account; the skip leaves the download directory empty twice over. -/
theorem C7_witness :
    (download_video wBatch "B" emptySt).2 = DlOut.ret none ∧
    ((download_video wBatch "B" emptySt).1).videoFiles = emptySt.videoFiles ∧
    ((download_video wBatch "B" ((download_video wBatch "B" emptySt).1)).1).videoFiles =
      emptySt.videoFiles := by
  have h := C7_notfound_skip wBatch "B" emptySt (by decide)
  exact ⟨h.2.2.2.1, h.2.1, h.2.2.2.2.2⟩

/-- C9 (implicit): when the destination rejects the record, `upload_video`
returns `None`, but the video object has already been mutated — id and
renditions overwritten to `None`, connection switched — and nothing is
rolled back. -/
theorem C9_upload_not_atomic (w : World) (v : Video) (st : St)
    (code : Nat) (desc : String)
    (hs : w.save (clearForUpload v) = SaveResult.illegalValue code desc) :
    (upload_video w v st).2.2 = none ∧
    (upload_video w v st).2.1 = clearForUpload v ∧
    ((upload_video w v st).2.1).id = none ∧
    ((upload_video w v st).2.1).renditions = none ∧
    ((upload_video w v st).2.1).connection = Conn.newConn := by
  have h := upload_video_eq w v st
  rw [hs] at h
  refine ⟨?_, ?_, ?_, ?_, ?_⟩ <;> rw [h] <;> simp [clearForUpload]

/-- Instantiation of `C9_upload_not_atomic`: after a rejected upload of a
record that held id "old1" and one rendition, the object retains neither. -/
theorem C9_witness :
    (upload_video wRej vOld emptySt).2.2 = none ∧
    ((upload_video wRej vOld emptySt).2.1).id = none ∧
    ((upload_video wRej vOld emptySt).2.1).renditions = none := by
  have h := C9_upload_not_atomic wRej vOld emptySt 304 "invalid field value" (by decide)
  exact ⟨h.1, h.2.2.1, h.2.2.2.1⟩

theorem processIds_spec (w : World) (cs : String) (ids : List String) :
    ∀ (st : St) (rows : List String),
      lookup st.csvFiles cs = some rows →
      (∀ id ∈ ids, DlOut.isCrash (dlOut w id) = false) →
      (processIds w cs ids st).2 = none ∧
      lookup ((processIds w cs ids st).1).csvFiles cs =
        some (rows ++ ids.filterMap (rowOf w)) := by
  induction ids with
  | nil =>
    intro st rows h _
    exact ⟨rfl, by simpa using h⟩
  | cons oldId rest ih =>
    intro st rows h hnc
    have hnc0 : DlOut.isCrash (dlOut w oldId) = false := hnc oldId (by simp)
    have hncr : ∀ id ∈ rest, DlOut.isCrash (dlOut w id) = false :=
      fun id hid => hnc id (by simp [hid])
    rcases hD : download_video w oldId st with ⟨st1, out⟩
    have hout : out = dlOut w oldId := by
      have hx := download_video_out_indep w oldId st
      rw [hD] at hx
      exact hx
    have hcsv1 : st1.csvFiles = st.csvFiles := by
      have hx := download_video_csvFiles w oldId st
      rw [hD] at hx
      exact hx
    cases hdl : dlOut w oldId with
    | crash c =>
      rw [hdl] at hnc0
      simp [DlOut.isCrash] at hnc0
    | ret ov =>
      rw [hdl] at hout
      subst hout
      cases ov with
      | none =>
        have hstep : processIds w cs (oldId :: rest) st = processIds w cs rest st1 := by
          simp [processIds, hD]
        have hrow : rowOf w oldId = none := by
          simp [rowOf, hdl]
        rw [hstep]
        have hres := ih st1 rows (by rw [hcsv1]; exact h) hncr
        simpa [List.filterMap_cons, hrow] using hres
      | some v =>
        rcases hU : upload_video w v st1 with ⟨st2, vm, r⟩
        have hcsv2 : st2.csvFiles = st1.csvFiles := by
          have hx := upload_video_csvFiles w v st1
          rw [hU] at hx
          exact hx
        have hUeq := upload_video_eq w v st1
        rw [hU] at hUeq
        cases hs : w.save (clearForUpload v) with
        | ok nid =>
          rw [hs] at hUeq
          simp only [Prod.mk.injEq] at hUeq
          obtain ⟨hst2, hvm, hr⟩ := hUeq
          have hstep : processIds w cs (oldId :: rest) st =
              processIds w cs rest (record_old_new_ids st2 cs oldId nid) := by
            simp [processIds, hD, hU, hr, pyStr]
          have hrow : rowOf w oldId = some (csvRow oldId nid) := by
            simp [rowOf, hdl, hs]
          have hlook2 : lookup st2.csvFiles cs = some rows := by
            rw [hcsv2, hcsv1]
            exact h
          have hlook3 : lookup (record_old_new_ids st2 cs oldId nid).csvFiles cs =
              some (rows ++ [csvRow oldId nid]) :=
            csvAppend_lookup st2 cs (csvRow oldId nid) rows hlook2
          have hres := ih (record_old_new_ids st2 cs oldId nid)
            (rows ++ [csvRow oldId nid]) hlook3 hncr
          rw [hstep]
          refine ⟨hres.1, ?_⟩
          rw [hres.2]
          simp [List.filterMap_cons, hrow]
        | illegalValue c d =>
          rw [hs] at hUeq
          simp only [Prod.mk.injEq] at hUeq
          obtain ⟨hst2, hvm, hr⟩ := hUeq
          have hstep : processIds w cs (oldId :: rest) st = processIds w cs rest st2 := by
            simp [processIds, hD, hU, hr]
          have hrow : rowOf w oldId = none := by
            simp [rowOf, hdl, hs]
          have hlook2 : lookup st2.csvFiles cs = some rows := by
            rw [hcsv2, hcsv1]
            exact h
          have hres := ih st2 rows hlook2 hncr
          rw [hstep]
          simpa [List.filterMap_cons, hrow] using hres

theorem process_videos_list_fresh (w : World) (fname : String) (st : St)
    (rawLines : List String)
    (hl : w.lists fname = some rawLines)
    (hcsv : lookup st.csvFiles (csvName fname) = none) :
    ∃ st4, process_videos_list w fname st =
        processIds w (csvName fname) (rawLines.map strip) st4 ∧
      lookup st4.csvFiles (csvName fname) = some [headerRow] := by
  simp only [process_videos_list, hl, hcsv]
  refine ⟨_, rfl, ?_⟩
  have h0 : lookup (upsert st.csvFiles (csvName fname) ([] : List String))
      (csvName fname) = some [] := lookup_upsert st.csvFiles (csvName fname) []
  simpa using csvAppend_lookup _ (csvName fname) headerRow [] h0

/-- C2 (the claim fails on the code): on an HTTP transport error the
handler at lines 146-151 evaluates the unbound name `url` while building
its log message, so instead of logging a warning and returning absent,
`download_video` raises `NameError`; the exception propagates through
`process_videos_list` and main, aborting the whole batch with a non-zero
exit after only the header row reached the CSV. -/
theorem C2_transport_error_crash :
    (download_video wErr "X" emptySt).2 = DlOut.crash (Crash.nameError "url") ∧
    (mainRun wErr ["bad.txt"] emptySt).2 = some (Crash.nameError "url") ∧
    exitCode (mainRun wErr ["bad.txt"] emptySt).2 = 1 ∧
    lookup ((mainRun wErr ["bad.txt"] emptySt).1).csvFiles (csvName "bad.txt") =
      some [headerRow] := by
  refine ⟨by decide, by decide, by decide, by decide⟩

/-- C3: an existing file at the derived output path is fatal: the run logs
a critical line and stops with `sys.exit(1)` (non-zero exit) before writing
any row, the filesystem — in particular the existing CSV — is unmodified,
and no later list is processed. -/
theorem C3_preexisting_csv (w : World) (fname : String) (st : St)
    (rawLines oldContent : List String)
    (hl : w.lists fname = some rawLines)
    (hcsv : lookup st.csvFiles (csvName fname) = some oldContent) :
    process_videos_list w fname st =
      ({ st with logs := st.logs ++ [LogLine.infoStarting fname,
          LogLine.criticalCsvExists (csvName fname)] },
        some (Crash.sysExit 1)) ∧
    ((process_videos_list w fname st).1).csvFiles = st.csvFiles ∧
    ((process_videos_list w fname st).1).videoFiles = st.videoFiles ∧
    lookup ((process_videos_list w fname st).1).csvFiles (csvName fname) =
      some oldContent ∧
    (∀ rest, runLists w (fname :: rest) st =
      ((process_videos_list w fname st).1, some (Crash.sysExit 1))) ∧
    exitCode (some (Crash.sysExit 1)) ≠ 0 := by
  have h : process_videos_list w fname st =
      ({ st with logs := st.logs ++ [LogLine.infoStarting fname,
          LogLine.criticalCsvExists (csvName fname)] },
        some (Crash.sysExit 1)) := by
    simp [process_videos_list, hl, hcsv]
  refine ⟨h, by rw [h], by rw [h], ?_, ?_, by simp [exitCode]⟩
  · rw [h]
    exact hcsv
  · intro rest
    simp [runLists, h]

/-- Instantiation of `C3_preexisting_csv`: with `"./old_new_ids-list1.txt.csv"`
already holding a row, the batch on `list1.txt` exits with `sys.exit(1)` and
the old file contents survive. -/
theorem C3_witness :
    process_videos_list wBatch "list1.txt" stPre =
      ({ stPre with logs := stPre.logs ++ [LogLine.infoStarting "list1.txt",
          LogLine.criticalCsvExists (csvName "list1.txt")] },
        some (Crash.sysExit 1)) ∧
    ((process_videos_list wBatch "list1.txt" stPre).1).csvFiles = stPre.csvFiles ∧
    lookup ((process_videos_list wBatch "list1.txt" stPre).1).csvFiles
        (csvName "list1.txt") = some ["junk"] ∧
    exitCode (some (Crash.sysExit 1)) ≠ 0 := by
  have h := C3_preexisting_csv wBatch "list1.txt" stPre [" A ", "B", "C"] ["junk"]
    (by decide) (by decide)
  exact ⟨h.1, h.2.1, h.2.2.2.1, h.2.2.2.2.2⟩

/-- C4: for a fresh output file and no transport crash, the CSV holds the
header row followed by exactly one quoted old/new row per successfully
migrated identifier, in the input's processing order over the
whitespace-trimmed lines; skipped identifiers contribute no row and no
error. -/
theorem C4_mapping_rows (w : World) (fname : String) (st : St)
    (rawLines : List String)
    (hl : w.lists fname = some rawLines)
    (hcsv : lookup st.csvFiles (csvName fname) = none)
    (hnc : ∀ id ∈ rawLines.map strip, DlOut.isCrash (dlOut w id) = false) :
    (process_videos_list w fname st).2 = none ∧
    lookup ((process_videos_list w fname st).1).csvFiles (csvName fname) =
      some (headerRow :: (rawLines.map strip).filterMap (rowOf w)) := by
  obtain ⟨st4, heq, h4⟩ := process_videos_list_fresh w fname st rawLines hl hcsv
  rw [heq]
  have h := processIds_spec w (csvName fname) (rawLines.map strip) st4 [headerRow] h4 hnc
  simpa using h

/-- Instantiation of `C4_mapping_rows` on the spec's example: input lines
`[" A ", "B", "C"]` with fetch("B") reporting NotFound produce exactly the
header plus the rows for A and C, in that order. -/
theorem C4_witness :
    (process_videos_list wBatch "list1.txt" emptySt).2 = none ∧
    lookup ((process_videos_list wBatch "list1.txt" emptySt).1).csvFiles
        (csvName "list1.txt") =
      some [headerRow, csvRow "A" "newA", csvRow "C" "newC"] := by
  have h := C4_mapping_rows wBatch "list1.txt" emptySt [" A ", "B", "C"]
    (by decide) (by decide) (by decide)
  refine ⟨h.1, ?_⟩
  rw [h.2]
  have hrows : (([" A ", "B", "C"].map strip).filterMap (rowOf wBatch)) =
      [csvRow "A" "newA", csvRow "C" "newC"] := by decide
  rw [hrows]

/-- C8: a list path that names no existing file is logged as a warning and
returned from without error, and the loop over the remaining lists simply
continues. -/
theorem C8_missing_list (w : World) (fname : String) (st : St)
    (hl : w.lists fname = none) :
    process_videos_list w fname st =
      ({ st with logs := st.logs ++ [LogLine.warnFileNotFound fname] }, none) ∧
    (process_videos_list w fname st).2 = none ∧
    ∀ rest, runLists w (fname :: rest) st =
      runLists w rest { st with logs := st.logs ++ [LogLine.warnFileNotFound fname] } := by
  have h : process_videos_list w fname st =
      ({ st with logs := st.logs ++ [LogLine.warnFileNotFound fname] }, none) := by
    simp [process_videos_list, hl]
  refine ⟨h, by rw [h], ?_⟩
  intro rest
  simp [runLists, h]

/-- Instantiation of `C8_missing_list`: a missing `nope.txt` is skipped and
the run proceeds to the next list. -/
theorem C8_witness :
    process_videos_list wBatch "nope.txt" emptySt =
      ({ emptySt with logs := emptySt.logs ++ [LogLine.warnFileNotFound "nope.txt"] },
        none) ∧
    runLists wBatch ["nope.txt", "skip.txt"] emptySt =
      runLists wBatch ["skip.txt"]
        { emptySt with logs := emptySt.logs ++ [LogLine.warnFileNotFound "nope.txt"] } := by
  have h := C8_missing_list wBatch "nope.txt" emptySt (by decide)
  exact ⟨h.1, h.2.2 ["skip.txt"]⟩

theorem filterMap_none {α β : Type} (f : α → Option β) :
    ∀ l : List α, (∀ a ∈ l, f a = none) → l.filterMap f = [] := by
  intro l
  induction l with
  | nil => intro _; rfl
  | cons a as ihs =>
    intro hall
    have ha : f a = none := hall a (by simp)
    simp only [List.filterMap_cons, ha]
    exact ihs (fun x hx => hall x (by simp [hx]))

/-- C10 (implicit): for an existing list whose output CSV does not
pre-exist, the header is written before any identifier is processed, so if
every identifier is skipped (and none crashes) the finished CSV holds
exactly the header row. -/
theorem C10_header_only (w : World) (fname : String) (st : St)
    (rawLines : List String)
    (hl : w.lists fname = some rawLines)
    (hcsv : lookup st.csvFiles (csvName fname) = none)
    (hnc : ∀ id ∈ rawLines.map strip, DlOut.isCrash (dlOut w id) = false)
    (hskip : ∀ id ∈ rawLines.map strip, rowOf w id = none) :
    (process_videos_list w fname st).2 = none ∧
    lookup ((process_videos_list w fname st).1).csvFiles (csvName fname) =
      some [headerRow] := by
  obtain ⟨st4, heq, h4⟩ := process_videos_list_fresh w fname st rawLines hl hcsv
  rw [heq]
  have h := processIds_spec w (csvName fname) (rawLines.map strip) st4 [headerRow] h4 hnc
  have hfm : (rawLines.map strip).filterMap (rowOf w) = [] :=
    filterMap_none (rowOf w) (rawLines.map strip) hskip
  rw [hfm] at h
  simpa using h

/-- Instantiation of `C10_header_only`: `skip.txt` holds only the
NotFound identifier "B", and its finished CSV is exactly the header. -/
theorem C10_witness :
    (process_videos_list wBatch "skip.txt" emptySt).2 = none ∧
    lookup ((process_videos_list wBatch "skip.txt" emptySt).1).csvFiles
        (csvName "skip.txt") = some [headerRow] :=
  C10_header_only wBatch "skip.txt" emptySt ["B"]
    (by decide) (by decide) (by decide) (by decide)

end CopyVideos
